import Mathlib

/-!
# Verification of the perpx-load-test core

Shallow embedding, in Lean 4, of the perpx-load-test repository's core
logic:

* deterministic worker-account derivation (`pkg/seed/seed.go` lines
  329-338 and the client's `NewPerpxBankClient`),
* the per-worker transaction generator (`PerpxBankClient.GenerateTx`
  with its lazy `ensureAccountQueried` resolution and atomic sequence
  counter),
* the funding planner (`seedAccounts` in `pkg/seed/seed.go`): balance
  precheck, needs-funding classification, batching, per-batch signing /
  broadcast / confirmation loop, and post-verification,
* the client factory's worker-id counter (`pkg/client/factory.go`).

Network responses (HTTP balance and account queries, broadcast and
confirmation outcomes) are modelled as explicit oracles passed to the
functions, so every definition is executable.  Cryptographic primitives
(SHA-256, secp256k1 key derivation, bech32 address encoding) are
abstracted as an explicit `CryptoBackend` record of functions: the
derivation pipeline applied on top of them is translated literally from
the source.  Machine integers are `Nat` with an explicit `% 2 ^ 64`
where the Go code's `uint64` wrap-around matters (the client's atomic
sequence counter).
-/

namespace PerpxLoadTest

/-! ## Account derivation

`seed.go` lines 329-338 and `client.go` (`NewPerpxBankClient`) lines
61-68 both derive the worker key as:

```
seedStr      := fmt.Sprintf("bench worker %d seed phrase for load testing account", i)
seed         := sha256.Sum256([]byte(seedStr))
adjustedSeed := sha256.Sum256(append(seed[:], byte(i)))
privKeyBytes, _ := btcec.PrivKeyFromBytes(adjustedSeed[:])
privKey      := &secp256k1.PrivKey{Key: privKeyBytes.Serialize()}
addr         := sdk.AccAddress(privKey.PubKey().Address())
```

We abstract the cryptographic primitives as a record of pure functions
over byte lists (bytes are `Nat`, kept below 256 by the `% 256` of
`byte(i)`); the derivation pipeline itself is translated literally,
once per source file.
-/

/-- Abstraction of the cryptographic primitives used by the derivation:
SHA-256, `btcec.PrivKeyFromBytes(...).Serialize()`, and
`PrivKey.PubKey().Address()`.  All are pure functions in Go as well. -/
structure CryptoBackend where
  sha256 : List Nat → List Nat
  privFromBytes : List Nat → List Nat
  addrOfPriv : List Nat → List Nat

/-- The fixed textual template combined with the worker index,
`fmt.Sprintf("bench worker %d seed phrase for load testing account", i)`. -/
def benchSeedString (i : Nat) : String :=
  "bench worker " ++ toString i ++ " seed phrase for load testing account"

/-- Byte view of an ASCII string (all characters of `benchSeedString`
are ASCII, so code points coincide with UTF-8 bytes). -/
def strBytes (s : String) : List Nat :=
  s.toList.map Char.toNat

/-- Worker-key derivation as performed by the seed command
(`seed.go` lines 329-338): double SHA-256 with the worker index
appended as a single byte (`byte(i)` is `i % 256`), then the curve
library's key and address derivation.  Returns
`(serialized private key, address)`. -/
def seedDeriveBenchKey (C : CryptoBackend) (i : Nat) : List Nat × List Nat :=
  let seed := C.sha256 (strBytes (benchSeedString i))
  let adjustedSeed := C.sha256 (seed ++ [i % 256])
  let privKey := C.privFromBytes adjustedSeed
  (privKey, C.addrOfPriv privKey)

/-- Worker-key derivation as performed by the load-test client
(`NewPerpxBankClient`, part_003 lines 61-68), translated from that
source file independently of `seedDeriveBenchKey`. -/
def clientDeriveBenchKey (C : CryptoBackend) (i : Nat) : List Nat × List Nat :=
  let seed := C.sha256 (strBytes (benchSeedString i))
  let adjustedSeed := C.sha256 (seed ++ [i % 256])
  let privKey := C.privFromBytes adjustedSeed
  (privKey, C.addrOfPriv privKey)

/-! ## Client factory (`pkg/client/factory.go`)

`NewClient` assigns `workerID := atomic.AddInt64(&f.workerCounter, 1) - 1`:
the returned id is the counter's previous value, and the counter
advances by one. -/

/-- One `NewClient` call on the factory: from the current counter value
it returns the assigned worker id and the new counter value. -/
def factoryNewClientId (workerCounter : Nat) : Nat × Nat :=
  (workerCounter + 1 - 1, workerCounter + 1)

/-- Worker ids handed out by `n` successive `NewClient` calls starting
from counter value `c`. -/
def factoryIdsFrom (c : Nat) : Nat → List Nat
  | 0 => []
  | n + 1 =>
    let (id, c2) := factoryNewClientId c
    id :: factoryIdsFrom c2 n

/-- Worker ids handed out by the first `n` `NewClient` calls on a fresh
factory (`NewPerpxBankClientFactory` zero-initializes the counter). -/
def factoryIds (n : Nat) : List Nat :=
  factoryIdsFrom 0 n

/-! ## Per-worker transaction generator (`PerpxBankClient`) -/

/-- Result of the REST account-info query performed by
`ensureAccountQueried`, as distinguished by the Go code: transport
error from `httpClient.Get`, non-200 status, JSON decode failure,
`ParseUint` failure on the account-number or sequence fields, or a
successful parse. -/
inductive AccountQueryResult where
  | queryErr
  | httpErr (status : Nat)
  | decodeErr
  | parseErr
  | ok (accountNum sequence : Nat)
  deriving DecidableEq, Repr

/-- Errors returned by `ensureAccountQueried` / `GenerateTx`.
`accountNotFound` stands for the two error paths whose message advises
to run the seed command first (transport error and non-200 status);
`decodeFailed` / `parseFailed` are the decode and `ParseUint` error
paths, whose messages carry no such advice. -/
inductive ClientErr where
  | accountNotFound
  | decodeFailed
  | parseFailed
  | signFailed
  deriving DecidableEq, Repr

/-- Mutable fields of `PerpxBankClient` touched by account resolution
and generation.  `sequence` is the `uint64` atomic counter, kept as a
`Nat` below `2 ^ 64`. -/
structure ClientState where
  accountQueried : Bool
  accountNum : Nat
  sequence : Nat
  deriving DecidableEq, Repr

/-- Client state as produced by `NewPerpxBankClient`: account not yet
queried, both numbers zero-initialized. -/
def newClientState : ClientState :=
  { accountQueried := false, accountNum := 0, sequence := 0 }

/-- Client state right after a successful account resolution. -/
def resolvedState (accountNum s0 : Nat) : ClientState :=
  { accountQueried := true, accountNum := accountNum, sequence := s0 }

/-- `ensureAccountQueried`: a no-op once `accountQueried` holds;
otherwise it consults the ledger (oracle `resp`) and either fails,
leaving the state untouched, or records account number and sequence
and marks the account queried. -/
def ensureAccountQueried (resp : AccountQueryResult) (s : ClientState) :
    Except ClientErr ClientState :=
  if s.accountQueried then .ok s
  else
    match resp with
    | .queryErr => .error .accountNotFound
    | .httpErr _ => .error .accountNotFound
    | .decodeErr => .error .decodeFailed
    | .parseErr => .error .parseFailed
    | .ok accountNum sequence =>
      .ok { accountQueried := true, accountNum := accountNum, sequence := sequence }

/-- Gas limit of a generated bank-send transaction
(`gasLimit := uint64(200000)`). -/
def clientGasLimit : Nat := 200000

/-- Minimum gas price hardcoded in both `GenerateTx` and `seedAccounts`
(`math.NewInt(25000000000)`). -/
def minGasPrice : Nat := 25000000000

/-- Observable content of one signed bank-send transaction produced by
`GenerateTx`: the signer metadata fed to the two-phase signing and the
fee fields set on the builder. -/
structure GenTx where
  signerSeq : Nat
  signerAccountNum : Nat
  gasLimit : Nat
  fee : Nat
  deriving DecidableEq, Repr

/-- `GenerateTx`: resolve the account lazily (errors propagate with the
state unchanged), reserve a sequence by atomic fetch-and-increment
(`atomic.AddUint64(&c.sequence, 1) - 1` returns the pre-increment
value; the counter wraps at `2 ^ 64`), then build and sign.  `signOk`
is the oracle for the cryptographic signing step; when it fails the
reserved sequence stays consumed. -/
def generateTx (resp : AccountQueryResult) (signOk : Bool) (s : ClientState) :
    Except ClientErr GenTx × ClientState :=
  match ensureAccountQueried resp s with
  | .error e => (.error e, s)
  | .ok s1 =>
    let seq := s1.sequence
    let s2 := { s1 with sequence := (s1.sequence + 1) % 2 ^ 64 }
    if signOk then
      (.ok { signerSeq := seq, signerAccountNum := s1.accountNum,
             gasLimit := clientGasLimit, fee := minGasPrice * clientGasLimit }, s2)
    else
      (.error .signFailed, s2)

/-- `n` successive `GenerateTx` calls, with the i-th call seeing account
query oracle `resp` and successful signing; returns the call results in
order and the final state. -/
def genRun (resp : AccountQueryResult) (s : ClientState) :
    Nat → List (Except ClientErr GenTx) × ClientState
  | 0 => ([], s)
  | n + 1 =>
    let (r, s1) := generateTx resp true s
    let (rest, s2) := genRun resp s1 n
    (r :: rest, s2)

/-! ## Funding planner (`seedAccounts`, `pkg/seed/seed.go`)

The planner is modelled from the point where the configuration is
parsed and the seed key resolved: the fund amount, worker count, batch
size and denom are inputs, and all network interactions are oracles.
Amount strings are modelled post-parse as `Nat`. -/

/-- Result of one REST balance query as distinguished by the Go code:
transport error from `restClient.Get`, non-200 status, JSON decode
failure, or the decoded list of `(denom, amount)` balances. -/
inductive BalanceQueryResult where
  | queryErr
  | httpErr (status : Nat)
  | decodeErr
  | ok (balances : List (String × Nat))
  deriving DecidableEq, Repr

/-- `sdk.Coins.AmountOf` of the coins accumulated by repeated
`Add` over the decoded balances: the sum of the amounts carrying the
given denom. -/
def amountOf (denom : String) (balances : List (String × Nat)) : Nat :=
  (balances.filter (fun b => b.1 == denom)).foldl (fun acc b => acc + b.2) 0

/-- Outcome of one funding batch's broadcast-and-confirm phase, as
distinguished by the Go code: transport / dial error around
`BroadcastTx`, immediate rejection (`TxResponse.Code != 0`), inclusion
with a non-zero on-chain code, no inclusion within the 30s poll bound,
or confirmed inclusion. -/
inductive BatchOutcome where
  | broadcastErr
  | rejected (code : Nat)
  | onChainFail (code : Nat)
  | timeout
  | confirmed
  deriving DecidableEq, Repr

/-- Planner configuration fields used past argument parsing:
`cfg.Workers`, `cfg.Denom`, the parsed `fundCoin.Amount`, and
`cfg.BatchSize`. -/
structure SeedCfg where
  workers : Nat
  denom : String
  fundAmount : Nat
  batchSize : Nat
  deriving Repr

/-- Network oracles consumed by one planner run: the seed account's
decoded balances, the per-worker pre-check balance query, the outcome
of each funding batch, and the per-worker post-verification balance
query. -/
structure SeedEnv where
  seedBalances : List (String × Nat)
  workerBalance : Nat → BalanceQueryResult
  batchOutcome : Nat → BatchOutcome
  verifyBalance : Nat → BalanceQueryResult

/-- Errors surfaced by the modelled part of `seedAccounts`. -/
inductive SeedErr where
  | insufficientFunds
  | broadcastFailed
  | broadcastRejected
  | onChainFailure
  | confirmTimeout
  | partialFunding
  deriving DecidableEq, Repr

/-- Pre-check classification of one worker account (`seed.go` lines
341-377): a failed query (transport error, non-200 status, or
undecodable body) is conservatively taken as needing funding, and so is
a decoded balance strictly below the per-account fund amount. -/
def needsFundingCheck (cfg : SeedCfg) : BalanceQueryResult → Bool
  | .queryErr => true
  | .httpErr _ => true
  | .decodeErr => true
  | .ok balances => amountOf cfg.denom balances < cfg.fundAmount

/-- Post-verification failure of one originally-deficient account
(`seed.go` lines 564-602): a failed re-query, or a re-queried balance
strictly below the per-account fund amount, clears `allFunded`. -/
def verifyFailCheck (cfg : SeedCfg) : BalanceQueryResult → Bool
  | .queryErr => true
  | .httpErr _ => true
  | .decodeErr => true
  | .ok balances => amountOf cfg.denom balances < cfg.fundAmount

/-- Total required funds (`seed.go` lines 176-178):
`fundCoin.Amount * Workers` plus the estimated fee reserve of
`Workers * 10000`. -/
def totalRequired (cfg : SeedCfg) : Nat :=
  cfg.fundAmount * cfg.workers + cfg.workers * 10000

/-- The batch loop's slicing `needsFunding[i : i+BatchSize]` for
`i = 0, B, 2B, ...`: successive chunks of size `b`, the last possibly
smaller.  Matches the Go loop for every `b ≥ 1`. -/
def chunks (b : Nat) : List α → List (List α)
  | [] => []
  | x :: xs => (x :: xs.take (b - 1)) :: chunks b (xs.drop (b - 1))
termination_by l => l.length
decreasing_by
  simp only [List.length_cons, List.length_drop]
  omega

/-- Error the planner returns for a non-confirmed batch outcome. -/
def errOfOutcome : BatchOutcome → Option SeedErr
  | .broadcastErr => some .broadcastFailed
  | .rejected _ => some .broadcastRejected
  | .onChainFail _ => some .onChainFailure
  | .timeout => some .confirmTimeout
  | .confirmed => none

/-- Observable content of one signed funding batch transaction: the
seed sequence it is signed with, the batch's recipient addresses (one
`MsgSend` per address), and the fee fields
(`gasLimit := 100000 * len(batch)`,
`feeAmount := minGasPrice * gasLimit`). -/
structure BatchTx where
  seq : Nat
  toAddrs : List Nat
  gasLimit : Nat
  fee : Nat
  deriving DecidableEq, Repr

/-- The transaction built and signed for one batch: one `MsgSend` per
recipient in `toAddrs`, `gasLimit := 100000 * len(batch)`,
`feeAmount := minGasPrice * gasLimit`, signed with the current seed
sequence. -/
def signedBatchTx (seqCur : Nat) (batch : List Nat) : BatchTx :=
  { seq := seqCur, toAddrs := batch,
    gasLimit := 100000 * batch.length,
    fee := minGasPrice * (100000 * batch.length) }

/-- The transactions the batch loop emits when every batch confirms:
one per batch, signed with successive sequences starting at `seqCur`. -/
def allConfirmedTxs (seqCur : Nat) : List (List Nat) → List BatchTx
  | [] => []
  | batch :: rest => signedBatchTx seqCur batch :: allConfirmedTxs (seqCur + 1) rest

/-- The funding batch loop (`seed.go` lines 387-559), processing the
`k`-th and later batches with current seed sequence `seqCur`: each
batch is built and signed with `seqCur`, then broadcast and confirmed
per the oracle; `currentSeq++` happens only after confirmed inclusion,
and any failure returns immediately, without building or signing the
remaining batches.  Returns the signed transactions in order, the
error if any, and the final local seed sequence. -/
def runBatchesAux (out : Nat → BatchOutcome) :
    Nat → Nat → List (List Nat) → List BatchTx × Option SeedErr × Nat
  | _, seqCur, [] => ([], none, seqCur)
  | k, seqCur, batch :: rest =>
    match out k with
    | .confirmed =>
      let (txs, e, seqFin) := runBatchesAux out (k + 1) (seqCur + 1) rest
      (signedBatchTx seqCur batch :: txs, e, seqFin)
    | o => ([signedBatchTx seqCur batch], errOfOutcome o, seqCur)

/-- The batch loop started at the first batch with the initially
queried seed sequence `seq0`. -/
def runBatches (out : Nat → BatchOutcome) (seq0 : Nat) (batches : List (List Nat)) :
    List BatchTx × Option SeedErr × Nat :=
  runBatchesAux out 0 seq0 batches

/-- The pre-check classification loop (`seed.go` lines 341-377): the
worker indices (in derivation order) whose accounts need funding. -/
def needsFundingList (cfg : SeedCfg) (env : SeedEnv) : List Nat :=
  (List.range cfg.workers).filter (fun i => needsFundingCheck cfg (env.workerBalance i))

/-- Result of one planner run: the broadcast funding transactions in
order and the error, if any. -/
structure SeedResult where
  broadcasts : List BatchTx
  err : Option SeedErr
  deriving DecidableEq, Repr

/-- `seedAccounts` from the insufficient-funds check on (worker
addresses are represented by their indices; `seq0` is the seed
account's initially queried sequence):

1. abort with `insufficientFunds` if the seed balance in the configured
   denom is strictly below `totalRequired` (before any broadcast);
2. classify each of the `workers` derived addresses with
   `needsFundingCheck`, keeping order;
3. if no account needs funding, return success with zero broadcasts;
4. otherwise run the batch loop over the `batchSize`-chunks of the
   needs-funding list; a batch failure propagates immediately;
5. after all batches confirm, re-check every originally-deficient
   account and fail with `partialFunding` if any check fails. -/
def seedAccountsModel (cfg : SeedCfg) (env : SeedEnv) (seq0 : Nat) : SeedResult :=
  if amountOf cfg.denom env.seedBalances < totalRequired cfg then
    { broadcasts := [], err := some .insufficientFunds }
  else
    let needsFunding := needsFundingList cfg env
    if needsFunding.isEmpty then
      { broadcasts := [], err := none }
    else
      let (txs, e, _) := runBatches env.batchOutcome seq0 (chunks cfg.batchSize needsFunding)
      match e with
      | some e => { broadcasts := txs, err := some e }
      | none =>
        if needsFunding.any (fun i => verifyFailCheck cfg (env.verifyBalance i)) then
          { broadcasts := txs, err := some .partialFunding }
        else
          { broadcasts := txs, err := none }

/-! ## Theorems -/

theorem factoryIdsFrom_eq_range' (n c : Nat) : factoryIdsFrom c n = List.range' c n := by
  induction n generalizing c with
  | zero => rfl
  | succ n ih => simp [factoryIdsFrom, factoryNewClientId, List.range', ih]

/-- Claim C3: For every worker index `i`, the account derivation performed
by the seed command and the one performed by the load-test client are
the same pure function of `i`: over any cryptographic backend they
produce the same `(private key bytes, address)` pair.  Both are pure
Lean functions of the index alone, so re-derivation in a fresh process
is byte-identical by construction. -/
theorem derive_seed_eq_client (C : CryptoBackend) (i : Nat) :
    seedDeriveBenchKey C i = clientDeriveBenchKey C i := rfl

/-- Claim C9: Successive `NewClient` calls on a fresh factory assign
worker ids `0, 1, 2, ...` in creation order (the ids of the first `n`
clients are exactly `List.range n`, pairwise distinct); hence for any
injective account-derivation map the derived accounts of distinct
clients are pairwise distinct. -/
theorem factory_assigns_sequential_ids (n : Nat) :
    factoryIds n = List.range n ∧ (factoryIds n).Nodup ∧
      ∀ d : Nat → List Nat × List Nat, Function.Injective d →
        ((factoryIds n).map d).Nodup := by
  have h : factoryIds n = List.range n := by
    rw [factoryIds, factoryIdsFrom_eq_range', List.range_eq_range']
  exact ⟨h, h ▸ List.nodup_range n, fun d hd => h ▸ (List.nodup_range n).map hd⟩

/-- Witness for C9: three clients from a fresh factory receive ids
`[0, 1, 2]`, and an injective derivation keeps them distinct. -/
theorem factory_assigns_sequential_ids_witness :
    factoryIds 3 = List.range 3 ∧ (factoryIds 3).Nodup ∧
      ((factoryIds 3).map (fun i => ([i], [i]))).Nodup := by
  have h := factory_assigns_sequential_ids 3
  exact ⟨h.1, h.2.1, h.2.2 (fun i => ([i], [i]))
    (fun a b hab => by simpa using congrArg (fun p => p.1) hab)⟩

/-- Claim C6: If a worker's account cannot be resolved from the ledger
(transport error or non-200 response), `GenerateTx` returns the
account-not-found error (whose message advises running the seed command
first) and leaves the client state — local sequence counter and account
number — unchanged. -/
theorem generateTx_unresolved_failure_no_advance (r : AccountQueryResult) (signOk : Bool)
    (s : ClientState) (hq : s.accountQueried = false)
    (hr : r = .queryErr ∨ ∃ c, r = .httpErr c) :
    generateTx r signOk s = (.error .accountNotFound, s) := by
  rcases hr with h | ⟨c, h⟩ <;> subst h <;>
    simp [generateTx, ensureAccountQueried, hq]

/-- Witness for C6: a fresh client whose first account query fails in
transport returns `accountNotFound` with the state untouched. -/
theorem generateTx_unresolved_failure_no_advance_witness :
    generateTx .queryErr true newClientState = (.error .accountNotFound, newClientState) :=
  generateTx_unresolved_failure_no_advance .queryErr true newClientState rfl (Or.inl rfl)

/-- Claim C4: If the seed account's balance in the configured denom is
strictly below the required total (fund amount × workers plus the
estimated fee reserve), the planner reports `insufficientFunds` and
returns with zero broadcasts. -/
theorem seed_insufficient_funds_aborts (cfg : SeedCfg) (env : SeedEnv) (seq0 : Nat)
    (h : amountOf cfg.denom env.seedBalances < totalRequired cfg) :
    seedAccountsModel cfg env seq0 = { broadcasts := [], err := some .insufficientFunds } := by
  unfold seedAccountsModel
  rw [if_pos h]

/-- Witness for C4: one worker, fund amount 5, empty seed balance:
the required total is `5 * 1 + 1 * 10000` and the planner aborts. -/
theorem seed_insufficient_funds_aborts_witness :
    amountOf "aperpx" [] < totalRequired ⟨1, "aperpx", 5, 50⟩ ∧
      seedAccountsModel ⟨1, "aperpx", 5, 50⟩
          ⟨[], fun _ => .ok [], fun _ => .confirmed, fun _ => .ok []⟩ 0 =
        { broadcasts := [], err := some .insufficientFunds } :=
  ⟨by decide,
   seed_insufficient_funds_aborts ⟨1, "aperpx", 5, 50⟩
     ⟨[], fun _ => .ok [], fun _ => .confirmed, fun _ => .ok []⟩ 0 (by decide)⟩

/-- Claim C8: A derived worker address is classified as needing funding
iff its balance query fails (transport error, non-200 status, or
undecodable body) or its decoded balance in the configured denom is
strictly below the per-account fund amount. -/
theorem needs_funding_classification (cfg : SeedCfg) (env : SeedEnv) (i : Nat) :
    i ∈ needsFundingList cfg env ↔
      i < cfg.workers ∧
        (env.workerBalance i = .queryErr ∨
         (∃ status, env.workerBalance i = .httpErr status) ∨
         env.workerBalance i = .decodeErr ∨
         ∃ bals, env.workerBalance i = .ok bals ∧
           amountOf cfg.denom bals < cfg.fundAmount) := by
  rw [needsFundingList, List.mem_filter, List.mem_range]
  refine and_congr_right fun _ => ?_
  cases h : env.workerBalance i <;> simp [needsFundingCheck, h]

/-- Claim C10: An account whose queried balance in the configured denom
exactly equals the per-account fund amount is treated as fully funded:
the pre-check does not classify it as needing funding and the
post-verification does not flag it, both comparisons being strict
less-than. -/
theorem exact_fund_amount_is_funded (cfg : SeedCfg) (env : SeedEnv) (i : Nat)
    (bals : List (String × Nat))
    (hq : env.workerBalance i = .ok bals)
    (heq : amountOf cfg.denom bals = cfg.fundAmount) :
    needsFundingCheck cfg (env.workerBalance i) = false ∧
      i ∉ needsFundingList cfg env ∧
      verifyFailCheck cfg (.ok bals) = false := by
  have h1 : needsFundingCheck cfg (env.workerBalance i) = false := by
    simp [hq, needsFundingCheck, heq]
  refine ⟨h1, ?_, by simp [verifyFailCheck, heq]⟩
  simp [needsFundingList, List.mem_filter, h1]

/-- Witness for C10: with fund amount 5 and a queried balance of
exactly 5, the account is excluded both from funding and from the
post-verification warning. -/
theorem exact_fund_amount_is_funded_witness :
    needsFundingCheck ⟨1, "aperpx", 5, 50⟩ ((fun _ : Nat => BalanceQueryResult.ok [("aperpx", 5)]) 0) = false ∧
      0 ∉ needsFundingList ⟨1, "aperpx", 5, 50⟩
          ⟨[("aperpx", 20000)], fun _ => .ok [("aperpx", 5)], fun _ => .confirmed,
            fun _ => .ok [("aperpx", 5)]⟩ ∧
      verifyFailCheck ⟨1, "aperpx", 5, 50⟩ (.ok [("aperpx", 5)]) = false :=
  exact_fund_amount_is_funded ⟨1, "aperpx", 5, 50⟩
    ⟨[("aperpx", 20000)], fun _ => .ok [("aperpx", 5)], fun _ => .confirmed,
      fun _ => .ok [("aperpx", 5)]⟩ 0 [("aperpx", 5)] rfl (by decide)

/-- Claim C7, counterexample: The claim asserts that the planner returns
success whenever every target worker account already holds at least the
per-account fund amount.  On the code, the seed-balance precheck runs
first regardless: with one worker holding exactly the fund amount (so
nothing needs funding) but an empty seed balance, the planner issues
zero broadcasts yet returns `insufficientFunds` instead of success. -/
theorem seed_already_funded_cex :
    needsFundingCheck ⟨1, "aperpx", 5, 50⟩ (.ok [("aperpx", 5)]) = false ∧
      seedAccountsModel ⟨1, "aperpx", 5, 50⟩
          ⟨[], fun _ => .ok [("aperpx", 5)], fun _ => .confirmed, fun _ => .ok [("aperpx", 5)]⟩ 0 =
        { broadcasts := [], err := some .insufficientFunds } := by
  constructor
  · decide
  · unfold seedAccountsModel
    rw [if_pos (by decide)]

/-- Claim C7, amended: Provided the seed-balance precheck passes (seed
balance in the configured denom at least the required total), running
the planner when every target worker account already holds at least the
per-account fund amount issues zero broadcasts and returns success:
no account is classified as needing funding and the batching loop is
skipped. -/
theorem seed_already_funded_idempotent (cfg : SeedCfg) (env : SeedEnv) (seq0 : Nat)
    (hbal : totalRequired cfg ≤ amountOf cfg.denom env.seedBalances)
    (hfunded : ∀ i, i < cfg.workers → ∃ bals,
      env.workerBalance i = .ok bals ∧ cfg.fundAmount ≤ amountOf cfg.denom bals) :
    needsFundingList cfg env = [] ∧
      seedAccountsModel cfg env seq0 = { broadcasts := [], err := none } := by
  have hneeds : needsFundingList cfg env = [] := by
    rw [needsFundingList, List.filter_eq_nil_iff]
    intro i hi
    obtain ⟨bals, hq, hge⟩ := hfunded i (List.mem_range.mp hi)
    simp [needsFundingCheck, hq, Nat.not_lt.mpr hge]
  refine ⟨hneeds, ?_⟩
  unfold seedAccountsModel
  rw [if_neg (Nat.not_lt.mpr hbal)]
  simp [hneeds]

/-- Witness for the amended C7: seed balance 20000 covers the required
total `5 * 1 + 1 * 10000`, the single worker holds 7 ≥ 5, and the
planner returns success with zero broadcasts. -/
theorem seed_already_funded_idempotent_witness :
    needsFundingList ⟨1, "aperpx", 5, 50⟩
        ⟨[("aperpx", 20000)], fun _ => .ok [("aperpx", 7)], fun _ => .confirmed,
          fun _ => .ok [("aperpx", 7)]⟩ = [] ∧
      seedAccountsModel ⟨1, "aperpx", 5, 50⟩
          ⟨[("aperpx", 20000)], fun _ => .ok [("aperpx", 7)], fun _ => .confirmed,
            fun _ => .ok [("aperpx", 7)]⟩ 3 =
        { broadcasts := [], err := none } :=
  seed_already_funded_idempotent ⟨1, "aperpx", 5, 50⟩
    ⟨[("aperpx", 20000)], fun _ => .ok [("aperpx", 7)], fun _ => .confirmed,
      fun _ => .ok [("aperpx", 7)]⟩ 3 (by decide)
    (fun i _ => ⟨[("aperpx", 7)], rfl, by decide⟩)

theorem chunks_cons (b : Nat) (x : α) (xs : List α) :
    chunks b (x :: xs) = (x :: xs.take (b - 1)) :: chunks b (xs.drop (b - 1)) := by
  rw [chunks]

theorem chunks_join (b : Nat) : ∀ l : List α, (chunks b l).flatten = l
  | [] => by rw [chunks]; rfl
  | x :: xs => by
    rw [chunks_cons, List.flatten_cons, chunks_join b (xs.drop (b - 1))]
    simp [List.take_append_drop]
termination_by l => l.length
decreasing_by simp only [List.length_cons, List.length_drop]; omega

theorem chunks_size_bounds (b : Nat) (hb : 0 < b) :
    ∀ l : List α, ∀ c ∈ chunks b l, 0 < c.length ∧ c.length ≤ b
  | [] => by rw [chunks]; intro c hc; cases hc
  | x :: xs => by
    rw [chunks_cons]
    intro c hc
    rcases List.mem_cons.mp hc with rfl | hmem
    · simp only [List.length_cons, List.length_take]
      omega
    · exact chunks_size_bounds b hb (xs.drop (b - 1)) c hmem
termination_by l => l.length
decreasing_by simp only [List.length_cons, List.length_drop]; omega

theorem chunks_length (b : Nat) (hb : 0 < b) :
    ∀ l : List α, (chunks b l).length = (l.length + b - 1) / b
  | [] => by
    rw [chunks]
    simp only [List.length_nil, Nat.zero_add]
    exact (Nat.div_eq_of_lt (by omega)).symm
  | x :: xs => by
    rw [chunks_cons]
    simp only [List.length_cons, List.length_drop,
      chunks_length b hb (xs.drop (b - 1))]
    have hr : xs.length + 1 + b - 1 = xs.length + b := by omega
    rw [hr, Nat.add_div_right _ hb]
    rcases le_or_lt (b - 1) xs.length with h | h
    · have h2 : xs.length - (b - 1) + b - 1 = xs.length := by omega
      rw [h2]
    · have h2 : xs.length - (b - 1) + b - 1 = b - 1 := by omega
      rw [h2, Nat.div_eq_of_lt (by omega), Nat.div_eq_of_lt (by omega)]
termination_by l => l.length
decreasing_by simp only [List.length_cons, List.length_drop]; omega

theorem chunks_eq_nil_iff (b : Nat) (l : List α) : chunks b l = [] ↔ l = [] := by
  cases l with
  | nil => rw [chunks]; simp
  | cons x xs => rw [chunks_cons]; simp

theorem chunks_dropLast_size (b : Nat) (hb : 0 < b) :
    ∀ l : List α, ∀ c ∈ (chunks b l).dropLast, c.length = b
  | [] => by rw [chunks]; intro c hc; cases hc
  | x :: xs => by
    rw [chunks_cons]
    cases hrest : chunks b (xs.drop (b - 1)) with
    | nil => simp
    | cons c0 cs =>
      intro c hc
      rw [List.dropLast_cons₂] at hc
      rcases List.mem_cons.mp hc with rfl | hmem
      · have hne : xs.drop (b - 1) ≠ [] := by
          intro hd
          rw [hd] at hrest
          rw [chunks] at hrest
          cases hrest
        have hlen : b - 1 < xs.length := by
          by_contra hcon
          exact hne (List.drop_eq_nil_of_le (by omega))
        simp only [List.length_cons, List.length_take]
        omega
      · exact chunks_dropLast_size b hb (xs.drop (b - 1)) c (hrest ▸ hmem)
termination_by l => l.length
decreasing_by simp only [List.length_cons, List.length_drop]; omega

theorem allConfirmedTxs_length (s : Nat) (bs : List (List Nat)) :
    (allConfirmedTxs s bs).length = bs.length := by
  induction bs generalizing s with
  | nil => rfl
  | cons batch rest ih => simp [allConfirmedTxs, ih]

theorem allConfirmedTxs_map_toAddrs (s : Nat) (bs : List (List Nat)) :
    (allConfirmedTxs s bs).map BatchTx.toAddrs = bs := by
  induction bs generalizing s with
  | nil => rfl
  | cons batch rest ih => simp [allConfirmedTxs, ih, signedBatchTx]

theorem allConfirmedTxs_mem (s : Nat) (bs : List (List Nat)) :
    ∀ tx ∈ allConfirmedTxs s bs, ∃ q, tx = signedBatchTx q tx.toAddrs ∧ tx.toAddrs ∈ bs := by
  induction bs generalizing s with
  | nil => intro tx htx; cases htx
  | cons batch rest ih =>
    intro tx htx
    rcases List.mem_cons.mp htx with rfl | hmem
    · exact ⟨s, rfl, List.mem_cons_self _ _⟩
    · obtain ⟨q, hq, hb⟩ := ih (s + 1) tx hmem
      exact ⟨q, hq, List.mem_cons_of_mem _ hb⟩

theorem runBatchesAux_cons_confirmed (out : Nat → BatchOutcome) (k seqCur : Nat)
    (batch : List Nat) (rest : List (List Nat)) (hout : out k = .confirmed) :
    runBatchesAux out k seqCur (batch :: rest) =
      (signedBatchTx seqCur batch :: (runBatchesAux out (k + 1) (seqCur + 1) rest).1,
       (runBatchesAux out (k + 1) (seqCur + 1) rest).2.1,
       (runBatchesAux out (k + 1) (seqCur + 1) rest).2.2) := by
  rcases hrec : runBatchesAux out (k + 1) (seqCur + 1) rest with ⟨txs, e, fin⟩
  simp [runBatchesAux, hout, hrec]

theorem runBatchesAux_cons_fail (out : Nat → BatchOutcome) (k seqCur : Nat)
    (batch : List Nat) (rest : List (List Nat)) (hout : out k ≠ .confirmed) :
    runBatchesAux out k seqCur (batch :: rest) =
      ([signedBatchTx seqCur batch], errOfOutcome (out k), seqCur) := by
  cases hout2 : out k
  case confirmed => exact absurd hout2 hout
  all_goals simp [runBatchesAux, hout2]

theorem runBatchesAux_all_confirmed (out : Nat → BatchOutcome)
    (hconf : ∀ j, out j = .confirmed) (bs : List (List Nat)) :
    ∀ k seqCur, runBatchesAux out k seqCur bs =
      (allConfirmedTxs seqCur bs, none, seqCur + bs.length) := by
  induction bs with
  | nil => intro k seqCur; simp [runBatchesAux, allConfirmedTxs]
  | cons batch rest ih =>
    intro k seqCur
    rw [runBatchesAux_cons_confirmed out k seqCur batch rest (hconf k), ih (k + 1) (seqCur + 1)]
    simp [allConfirmedTxs]
    omega

theorem runBatchesAux_seq (out : Nat → BatchOutcome) (bs : List (List Nat)) :
    ∀ k seqCur j tx, (runBatchesAux out k seqCur bs).1.get? j = some tx →
      tx.seq = seqCur + j := by
  induction bs with
  | nil => intro k seqCur j tx h; simp [runBatchesAux] at h
  | cons batch rest ih =>
    intro k seqCur j tx h
    by_cases hout : out k = .confirmed
    · rw [runBatchesAux_cons_confirmed out k seqCur batch rest hout] at h
      cases j with
      | zero =>
        simp only [List.get?_cons_zero, Option.some_inj] at h
        rw [← h]
        simp [signedBatchTx]
      | succ j =>
        simp only [List.get?_cons_succ] at h
        have := ih (k + 1) (seqCur + 1) j tx h
        omega
    · rw [runBatchesAux_cons_fail out k seqCur batch rest hout] at h
      cases j with
      | zero =>
        simp only [List.get?_cons_zero, Option.some_inj] at h
        rw [← h]
        simp [signedBatchTx]
      | succ j => simp at h

theorem runBatchesAux_first_fail (out : Nat → BatchOutcome) (bs : List (List Nat)) :
    ∀ k seqCur i (hi : i < bs.length),
      (∀ j, j < i → out (k + j) = .confirmed) → out (k + i) ≠ .confirmed →
      runBatchesAux out k seqCur bs =
        (allConfirmedTxs seqCur (bs.take i) ++ [signedBatchTx (seqCur + i) (bs.get ⟨i, hi⟩)],
         errOfOutcome (out (k + i)), seqCur + i) := by
  induction bs with
  | nil => intro k seqCur i hi; simp at hi
  | cons batch rest ih =>
    intro k seqCur i hi hconf hfail
    cases i with
    | zero =>
      rw [runBatchesAux_cons_fail out k seqCur batch rest (by simpa using hfail)]
      simp [allConfirmedTxs]
    | succ i =>
      have h0 : out k = .confirmed := by simpa using hconf 0 (Nat.succ_pos i)
      rw [runBatchesAux_cons_confirmed out k seqCur batch rest h0]
      have hi2 : i < rest.length := by simpa using hi
      have harith1 : ∀ j, k + 1 + j = k + (j + 1) := by omega
      have hrec := ih (k + 1) (seqCur + 1) i hi2
        (fun j hj => by rw [harith1 j]; exact hconf (j + 1) (by omega))
        (by rw [harith1 i]; exact hfail)
      rw [hrec]
      have harith2 : seqCur + 1 + i = seqCur + (i + 1) := by omega
      simp [allConfirmedTxs, List.take_succ_cons, harith1, harith2]

/-- Claim C2: In the funding planner's batch loop: every signed batch
transaction carries the seed account's initially queried sequence plus
its batch index; when every batch confirms, the loop emits one signed
transaction per batch and advances the local seed sequence by exactly
one per confirmed batch (final sequence `seq0 + #batches`); and if
batch `i` is the first that fails to confirm (broadcast error,
rejection, on-chain failure, or timeout), the loop returns the
corresponding error having signed only batches `0..i`, with the local
sequence advanced only for the `i` confirmed batches. -/
theorem funding_batches_sequential (out : Nat → BatchOutcome) (seq0 : Nat)
    (batches : List (List Nat)) :
    (∀ j tx, (runBatches out seq0 batches).1.get? j = some tx → tx.seq = seq0 + j) ∧
    ((∀ j, out j = .confirmed) →
      runBatches out seq0 batches = (allConfirmedTxs seq0 batches, none, seq0 + batches.length)) ∧
    (∀ i (hi : i < batches.length), (∀ j, j < i → out j = .confirmed) →
      out i ≠ .confirmed →
      runBatches out seq0 batches =
        (allConfirmedTxs seq0 (batches.take i) ++
           [signedBatchTx (seq0 + i) (batches.get ⟨i, hi⟩)],
         errOfOutcome (out i), seq0 + i)) := by
  refine ⟨fun j tx h => runBatchesAux_seq out batches 0 seq0 j tx h,
    fun hconf => runBatchesAux_all_confirmed out hconf batches 0 seq0,
    fun i hi hconf hfail => ?_⟩
  have h := runBatchesAux_first_fail out batches 0 seq0 i hi
    (fun j hj => by simpa using hconf j hj) (by simpa using hfail)
  simpa using h

/-- Witness for C2: a run where every batch confirms, plus a run whose
second batch times out after the first confirms, plus the sequence of
the first signed transaction. -/
theorem funding_batches_sequential_witness :
    (runBatches (fun _ => .confirmed) 7 [[0], [1], [2]] =
       (allConfirmedTxs 7 [[0], [1], [2]], none, 7 + 3)) ∧
    (runBatches (fun j => if j = 1 then BatchOutcome.timeout else .confirmed) 7 [[0], [1], [2]] =
       (allConfirmedTxs 7 ([[0], [1], [2]].take 1) ++
          [signedBatchTx (7 + 1) (([[0], [1], [2]] : List (List Nat)).get ⟨1, by decide⟩)],
        errOfOutcome ((fun j => if j = 1 then BatchOutcome.timeout else .confirmed) 1), 7 + 1)) ∧
    (signedBatchTx 7 [0]).seq = 7 + 0 :=
  ⟨(funding_batches_sequential (fun _ => .confirmed) 7 [[0], [1], [2]]).2.1 (fun _ => rfl),
   (funding_batches_sequential (fun j => if j = 1 then BatchOutcome.timeout else .confirmed)
       7 [[0], [1], [2]]).2.2 1 (by decide) (by decide) (by decide),
   (funding_batches_sequential (fun _ => .confirmed) 7 [[0], [1], [2]]).1 0
     (signedBatchTx 7 [0]) rfl⟩

/-- Claim C5: With batch size `b > 0` and `accts` the in-order list of
accounts needing funding, the planner partitions them into
`ceil(len/b) = (len + b - 1) / b` batches: the concatenation of the
batches is the original list in order, every batch but the last has
exactly `b` accounts, every batch is nonempty with at most `b`
accounts; and (all batches confirming) the loop emits exactly one
transaction per batch whose message recipients are precisely that
batch, with gas limit `100000 * batchSize` and fee
`minGasPrice * (100000 * batchSize)`. -/
theorem funding_batch_partition (b : Nat) (hb : 0 < b) (accts : List Nat)
    (out : Nat → BatchOutcome) (seq0 : Nat) (hconf : ∀ j, out j = .confirmed) :
    (chunks b accts).length = (accts.length + b - 1) / b ∧
    (chunks b accts).flatten = accts ∧
    (∀ c ∈ (chunks b accts).dropLast, c.length = b) ∧
    (∀ c ∈ chunks b accts, 0 < c.length ∧ c.length ≤ b) ∧
    (runBatches out seq0 (chunks b accts)).1.map BatchTx.toAddrs = chunks b accts ∧
    ∀ tx ∈ (runBatches out seq0 (chunks b accts)).1,
      tx.gasLimit = 100000 * tx.toAddrs.length ∧
      tx.fee = minGasPrice * (100000 * tx.toAddrs.length) := by
  have hrun := runBatchesAux_all_confirmed out hconf (chunks b accts) 0 seq0
  refine ⟨chunks_length b hb accts, chunks_join b accts,
    chunks_dropLast_size b hb accts, chunks_size_bounds b hb accts, ?_, ?_⟩
  · rw [runBatches, hrun]
    exact allConfirmedTxs_map_toAddrs seq0 (chunks b accts)
  · intro tx htx
    rw [runBatches, hrun] at htx
    obtain ⟨q, hq, -⟩ := allConfirmedTxs_mem seq0 (chunks b accts) tx htx
    rw [hq]
    exact ⟨rfl, rfl⟩

/-- Witness for C5, the spec's concrete example: 10 accounts with batch
size 4 give exactly 3 batches of sizes 4, 4, 2, and each emitted
transaction carries the per-batch gas and fee. -/
theorem funding_batch_partition_witness :
    (chunks 4 [0, 1, 2, 3, 4, 5, 6, 7, 8, 9] = [[0, 1, 2, 3], [4, 5, 6, 7], [8, 9]]) ∧
    (chunks 4 ([0, 1, 2, 3, 4, 5, 6, 7, 8, 9] : List Nat)).length = (10 + 4 - 1) / 4 ∧
    (chunks 4 ([0, 1, 2, 3, 4, 5, 6, 7, 8, 9] : List Nat)).flatten =
      [0, 1, 2, 3, 4, 5, 6, 7, 8, 9] ∧
    (runBatches (fun _ => .confirmed) 0
        (chunks 4 [0, 1, 2, 3, 4, 5, 6, 7, 8, 9])).1.map BatchTx.toAddrs =
      chunks 4 [0, 1, 2, 3, 4, 5, 6, 7, 8, 9] := by
  have h := funding_batch_partition 4 (by decide) [0, 1, 2, 3, 4, 5, 6, 7, 8, 9]
    (fun _ => .confirmed) 0 (fun _ => rfl)
  exact ⟨by simp [chunks], h.1, h.2.1, h.2.2.2.2.1⟩

theorem genRun_succ (r : AccountQueryResult) (s : ClientState) (n : Nat) :
    genRun r s (n + 1) =
      ((generateTx r true s).1 :: (genRun r (generateTx r true s).2 n).1,
       (genRun r (generateTx r true s).2 n).2) := by
  rcases h1 : generateTx r true s with ⟨res, s1⟩
  rcases h2 : genRun r s1 n with ⟨rest, s2⟩
  simp [genRun, h1, h2]

theorem genRun_resolved (r : AccountQueryResult) (an : Nat) :
    ∀ n s0, s0 + n < 2 ^ 64 →
      genRun r (resolvedState an s0) n =
        ((List.range n).map (fun k => Except.ok
            { signerSeq := s0 + k, signerAccountNum := an,
              gasLimit := clientGasLimit, fee := minGasPrice * clientGasLimit }),
         resolvedState an (s0 + n)) := by
  intro n
  induction n with
  | zero => intro s0 h; simp [genRun]
  | succ n ih =>
    intro s0 h
    have hstep : generateTx r true (resolvedState an s0) =
        (.ok { signerSeq := s0, signerAccountNum := an, gasLimit := clientGasLimit,
               fee := minGasPrice * clientGasLimit },
         resolvedState an (s0 + 1)) := by
      have hmod : (s0 + 1) % 2 ^ 64 = s0 + 1 := Nat.mod_eq_of_lt (by omega)
      simp [generateTx, ensureAccountQueried, resolvedState, hmod]
      omega
    rw [genRun_succ, hstep]
    simp only
    rw [ih (s0 + 1) (by omega)]
    have harith : ∀ k, s0 + 1 + k = s0 + (k + 1) := by omega
    rw [List.range_succ_eq_map]
    simp [List.map_map, Function.comp, harith, Nat.add_comm 1]

/-- Claim C1: For a worker whose account resolution succeeded with
starting sequence `s0` (and whose counter has not reached the `uint64`
bound), `n` successful `GenerateTx` calls return transactions signed
with sequences `s0, s0 + 1, ..., s0 + n - 1` — exactly `range' s0 n`,
duplicate-free — the local counter ends at `s0 + n` and only advances
(after `m` calls it reads `s0 + m`), account resolution populates the
counter from the ledger, and once resolved it is never re-initialized
(`ensureAccountQueried` is a no-op). -/
theorem map_add_range (s n : Nat) :
    (List.range n).map (fun k => s + k) = List.range' s n := by
  rw [List.range_eq_range', List.map_add_range']
  norm_num

theorem generator_run_sequences (r : AccountQueryResult) (an s0 n : Nat)
    (h : s0 + n < 2 ^ 64) :
    ((genRun r (resolvedState an s0) n).1 =
       (List.range n).map (fun k => Except.ok
          { signerSeq := s0 + k, signerAccountNum := an,
            gasLimit := clientGasLimit, fee := minGasPrice * clientGasLimit })) ∧
    (((genRun r (resolvedState an s0) n).1.filterMap Except.toOption).map GenTx.signerSeq =
       List.range' s0 n) ∧
    (List.range' s0 n).Nodup ∧
    ((genRun r (resolvedState an s0) n).2 = resolvedState an (s0 + n)) ∧
    (∀ m, m ≤ n → ((genRun r (resolvedState an s0) m).2).sequence = s0 + m) ∧
    ensureAccountQueried (.ok an s0) newClientState = .ok (resolvedState an s0) ∧
    (∀ r2 s, s.accountQueried = true → ensureAccountQueried r2 s = .ok s) := by
  have hrun := genRun_resolved r an n s0 h
  have h1 : (genRun r (resolvedState an s0) n).1 =
      (List.range n).map (fun k => Except.ok
        { signerSeq := s0 + k, signerAccountNum := an,
          gasLimit := clientGasLimit, fee := minGasPrice * clientGasLimit }) := by
    rw [hrun]
  refine ⟨h1, ?_, List.nodup_range' s0 n 1 (by norm_num), by rw [hrun], ?_, ?_, ?_⟩
  · rw [h1]
    rw [List.filterMap_map]
    have hfm : (Except.toOption ∘ fun k : Nat => (Except.ok
        { signerSeq := s0 + k, signerAccountNum := an,
          gasLimit := clientGasLimit,
          fee := minGasPrice * clientGasLimit } : Except ClientErr GenTx)) =
        some ∘ (fun k : Nat =>
          ({ signerSeq := s0 + k, signerAccountNum := an,
             gasLimit := clientGasLimit,
             fee := minGasPrice * clientGasLimit } : GenTx)) := rfl
    rw [hfm, List.filterMap_eq_map, List.map_map]
    have hcomp : (GenTx.signerSeq ∘ fun k : Nat =>
          ({ signerSeq := s0 + k, signerAccountNum := an,
             gasLimit := clientGasLimit,
             fee := minGasPrice * clientGasLimit } : GenTx)) = fun k : Nat => s0 + k := rfl
    rw [hcomp, map_add_range]
  · intro m hm
    have := genRun_resolved r an m s0 (by omega)
    rw [this]
    rfl
  · rfl
  · intro r2 s hq
    simp [ensureAccountQueried, hq]

/-- Witness for C1: account number 2, starting sequence 5, three calls:
signer sequences are exactly `[5, 6, 7]`, the counter ends at 8 and
reads `5 + 2` after two calls, and resolution populates the state from
the ledger exactly once. -/
theorem generator_run_sequences_witness :
    5 + 3 < 2 ^ 64 ∧
    (((genRun .queryErr (resolvedState 2 5) 3).1.filterMap Except.toOption).map
        GenTx.signerSeq = List.range' 5 3) ∧
    ((genRun .queryErr (resolvedState 2 5) 3).2 = resolvedState 2 (5 + 3)) ∧
    ((genRun .queryErr (resolvedState 2 5) 2).2.sequence = 5 + 2) ∧
    ensureAccountQueried (.ok 2 5) newClientState = .ok (resolvedState 2 5) ∧
    ensureAccountQueried .queryErr (resolvedState 2 5) = .ok (resolvedState 2 5) := by
  have h := generator_run_sequences .queryErr 2 5 3 (by decide)
  exact ⟨by decide, h.2.1, h.2.2.2.1, h.2.2.2.2.1 2 (by decide), h.2.2.2.2.2.1,
    h.2.2.2.2.2.2 .queryErr (resolvedState 2 5) rfl⟩

end PerpxLoadTest
